import Mathlib

/-!
Verification of the LevelOneIncident multi-agent coordination system.

The Python sources (`master_agent.py`, `slave_agent.py`,
`incident_master_agent.py`, `incident_slave_agent.py`) are shallowly
embedded below: strings are Lean `String`s (lists of characters),
timestamps are integers counting hours, Python's `x in s` substring test,
`str.lower`, `str.upper`, `str.strip`, `str.replace(' ', '_')` are
modelled character by character for the ASCII data the program handles,
and Python's stable `list.sort(key=..., reverse=True)` is modelled by a
stable descending insertion sort.
-/

namespace LevelOne

/-! ### Python string primitives -/

/-- ASCII `str.lower` on one character (as in CPython for ASCII data). -/
def lowChar (c : Char) : Char :=
  if 'A' ≤ c ∧ c ≤ 'Z' then Char.ofNat (c.toNat + 32) else c

/-- ASCII `str.upper` on one character. -/
def upChar (c : Char) : Char :=
  if 'a' ≤ c ∧ c ≤ 'z' then Char.ofNat (c.toNat - 32) else c

/-- Python `\s` (ASCII range). -/
def isPySpace (c : Char) : Bool :=
  c = ' ' || c = '\t' || c = '\n' || c = '\x0d' || c = '\x0c' || c = '\x0b'

/-- Python `\w` (ASCII range, the only characters the data uses). -/
def isWordChar (c : Char) : Bool :=
  ('a' ≤ c && c ≤ 'z') || ('A' ≤ c && c ≤ 'Z') || ('0' ≤ c && c ≤ '9') || c = '_'

def isUpperAlpha (c : Char) : Bool := 'A' ≤ c && c ≤ 'Z'

/-- Python's substring test `needle in hay` on character lists. -/
def isSub (n : List Char) : List Char → Bool
  | [] => n.isEmpty
  | c :: t => n.isPrefixOf (c :: t) || isSub n t

/-- Python `needle in hay` on strings. -/
def pyIn (n h : String) : Bool := isSub n.data h.data

/-- Python `str.lower()` (ASCII). -/
def pyLower (s : String) : String := ⟨s.data.map lowChar⟩

/-- Python `str.upper()` (ASCII). -/
def pyUpper (s : String) : String := ⟨s.data.map upChar⟩

/-- Python `str.replace(' ', '_')`, used to build task ids. -/
def pyReplaceSpace (s : String) : String :=
  ⟨s.data.map (fun c => if c = ' ' then '_' else c)⟩

/-- Python `str.strip()` (whitespace at both ends). -/
def pyStrip (s : List Char) : List Char :=
  ((s.dropWhile isPySpace).reverse.dropWhile isPySpace).reverse

@[simp] theorem isSub_nil (h : List Char) : isSub [] h = true := by
  cases h <;> simp [isSub, List.isPrefixOf]

/-! ### Stable descending sort

Python's `list.sort(key=k, reverse=True)` is a stable sort: the result is
weakly decreasing in the key and elements with equal keys keep their
original relative order.  Insertion sort that inserts each element before
the first strictly smaller key reproduces exactly that behaviour. -/

variable {α : Type} {β : Type} [LinearOrder β]

/-- Insert `x` into `l`, passing over elements with strictly larger key and
stopping before the first element whose key is `≤ key x`. -/
def insDesc (key : α → β) (x : α) : List α → List α
  | [] => [x]
  | y :: l => if key y ≤ key x then x :: y :: l else y :: insDesc key x l

/-- Stable descending insertion sort, modelling Python's
`sort(key=..., reverse=True)`. -/
def sortDesc (key : α → β) : List α → List α
  | [] => []
  | x :: l => insDesc key x (sortDesc key l)

theorem insDesc_perm (key : α → β) (x : α) (l : List α) :
    (insDesc key x l).Perm (x :: l) := by
  induction l with
  | nil => simp [insDesc]
  | cons y t ih =>
    by_cases h : key y ≤ key x
    · simp [insDesc, h]
    · simp only [insDesc, if_neg h]
      exact (ih.cons y).trans (List.Perm.swap x y t)

theorem sortDesc_perm (key : α → β) (l : List α) : (sortDesc key l).Perm l := by
  induction l with
  | nil => simp [sortDesc]
  | cons x t ih => exact (insDesc_perm key x (sortDesc key t)).trans (ih.cons x)

theorem mem_insDesc (key : α → β) (x a : α) (l : List α) :
    a ∈ insDesc key x l ↔ a = x ∨ a ∈ l := by
  rw [(insDesc_perm key x l).mem_iff]; simp

theorem mem_sortDesc (key : α → β) (a : α) (l : List α) :
    a ∈ sortDesc key l ↔ a ∈ l := (sortDesc_perm key l).mem_iff

theorem insDesc_pairwise (key : α → β) (x : α) (l : List α)
    (hl : l.Pairwise (fun a b => key b ≤ key a)) :
    (insDesc key x l).Pairwise (fun a b => key b ≤ key a) := by
  induction l with
  | nil => simp [insDesc]
  | cons y t ih =>
    rcases List.pairwise_cons.mp hl with ⟨hy, ht⟩
    by_cases h : key y ≤ key x
    · simp only [insDesc, if_pos h]
      refine List.pairwise_cons.mpr ⟨?_, hl⟩
      intro b hb
      rcases List.mem_cons.mp hb with hb | hb
      · exact hb ▸ h
      · exact le_trans (hy b hb) h
    · simp only [insDesc, if_neg h]
      refine List.pairwise_cons.mpr ⟨?_, ih ht⟩
      intro b hb
      rcases (mem_insDesc key x b t).mp hb with hb | hb
      · exact hb ▸ le_of_not_le h
      · exact hy b hb

theorem sortDesc_pairwise (key : α → β) (l : List α) :
    (sortDesc key l).Pairwise (fun a b => key b ≤ key a) := by
  induction l with
  | nil => simp [sortDesc]
  | cons x t ih => exact insDesc_pairwise key x (sortDesc key t) ih

theorem filter_insDesc (key : α → β) (v : β) (x : α) (l : List α) :
    (insDesc key x l).filter (fun a => decide (key a = v)) =
      if key x = v then x :: l.filter (fun a => decide (key a = v))
      else l.filter (fun a => decide (key a = v)) := by
  induction l with
  | nil =>
    by_cases hx : key x = v <;> simp [insDesc, List.filter, hx]
  | cons y t ih =>
    by_cases h : key y ≤ key x
    · rw [insDesc, if_pos h]
      by_cases hx : key x = v <;> simp [List.filter_cons, hx]
    · rw [insDesc, if_neg h]
      by_cases hy : key y = v
      · have hx : ¬ key x = v := fun hx => h (le_of_eq (hy.trans hx.symm))
        simp [List.filter_cons, hy, hx, ih]
      · by_cases hx : key x = v <;> simp [List.filter_cons, hy, hx, ih]

/-- Stability of the sort: for every key value, the elements carrying that
key appear in the output in exactly their input order. -/
theorem filter_sortDesc (key : α → β) (v : β) (l : List α) :
    (sortDesc key l).filter (fun a => decide (key a = v)) =
      l.filter (fun a => decide (key a = v)) := by
  induction l with
  | nil => simp [sortDesc]
  | cons x t ih =>
    by_cases hx : key x = v <;>
      simp [sortDesc, filter_insDesc, hx, List.filter_cons, ih]

/-! ### Incident slave agent (`incident_slave_agent.py`)

A task dictionary.  `tentative_deadline` is an `Option Int` because the
external enhancement hook may return tasks without a deadline
(`deadline-or-null` in its interface contract); every rule-generated task
carries `some` deadline.  Timestamps count hours, so Python's
`deadline - timedelta(hours=k)` becomes `deadline - k`. -/
structure Task where
  task_id : String
  description : String
  importance : Int
  estimated_hours : Int
  tentative_deadline : Option Int
  assigned_to : String
  dependencies : List String
  deriving DecidableEq, Repr

/-- The state of an `IncidentSlaveAgent` after `__init__` (name, lead and
members parsed from the team file, `expertise` from
`_identify_expertise`). -/
structure IncidentAgent where
  team_name : String
  team_lead : String
  members : List String
  expertise : List String
  deriving DecidableEq, Repr

/-- The `expertise_keywords` table of `_identify_expertise`, in Python
dict insertion order. -/
def expertiseKeywords : List (String × List String) :=
  [("security", ["security", "vulnerability", "authentication", "encryption"]),
   ("frontend", ["frontend", "ui", "ux", "dashboard", "mobile", "responsive"]),
   ("backend", ["backend", "api", "database", "server", "infrastructure"]),
   ("infrastructure", ["infrastructure", "deployment", "scaling", "monitoring", "uptime"]),
   ("database", ["database", "migration", "sql", "cache", "redis"]),
   ("performance", ["performance", "optimization", "scaling", "rate limiting"]),
   ("monitoring", ["monitoring", "alerts", "logging", "metrics"])]

/-- `IncidentSlaveAgent._identify_expertise`: an area is included iff one
of its keywords occurs in the lower-cased team file content. -/
def identifyExpertise (content : String) : List String :=
  let cl := pyLower content
  (expertiseKeywords.filter (fun p => p.2.any (fun k => pyIn k cl))).map (fun p => p.1)

/-- `IncidentSlaveAgent._calculate_relevance`. -/
def calculateRelevance (team_name : String) (expertise : List String)
    (incident : String) : Int :=
  let il := pyLower incident
  (if pyIn (pyLower team_name) il then 20 else 0) +
  10 * ((expertise.filter (fun e => pyIn e il)).length : Int) +
  (if (pyIn "outage" il || pyIn "down" il) &&
      (expertise.contains "infrastructure" || expertise.contains "backend")
   then 15 else 0) +
  (if (pyIn "security" il || pyIn "breach" il) && expertise.contains "security"
   then 20 else 0) +
  (if (pyIn "performance" il || pyIn "slow" il) &&
      (expertise.contains "performance" || expertise.contains "database")
   then 15 else 0)

/-- `self.team_name.replace(' ', '_')`, the task-id prefix. -/
def teamId (a : IncidentAgent) : String := pyReplaceSpace a.team_name

/-- `self.members[0] if self.members else self.team_lead`. -/
def member0 (a : IncidentAgent) : String := a.members.headD a.team_lead

/-- `self.members[1] if len(self.members) > 1 else self.team_lead`. -/
def member1 (a : IncidentAgent) : String := a.members.getD 1 a.team_lead

/-- `IncidentSlaveAgent._generate_security_tasks`. -/
def generateSecurityTasks (a : IncidentAgent) (incident : String)
    (deadline : Int) (base : Int) : List Task :=
  let il := pyLower incident
  if pyIn "security" il || pyIn "breach" il || pyIn "vulnerability" il then
    [⟨teamId a ++ "_SEC_01", "Conduct immediate security audit of affected systems",
      base + 3, 4, some (deadline - 8), member0 a, []⟩,
     ⟨teamId a ++ "_SEC_02", "Review access logs for suspicious activity",
      base + 2, 3, some (deadline - 6), member1 a, [teamId a ++ "_SEC_01"]⟩,
     ⟨teamId a ++ "_SEC_03", "Implement security patches and hotfixes",
      base + 4, 6, some (deadline - 2), a.team_lead, [teamId a ++ "_SEC_01"]⟩]
  else []

/-- `IncidentSlaveAgent._generate_infrastructure_tasks`. -/
def generateInfrastructureTasks (a : IncidentAgent) (incident : String)
    (deadline : Int) (base : Int) : List Task :=
  let il := pyLower incident
  if pyIn "outage" il || pyIn "down" il || pyIn "unavailable" il then
    [⟨teamId a ++ "_INFRA_01", "Check server health and resource utilization",
      base + 4, 2, some (deadline - 10), member0 a, []⟩,
     ⟨teamId a ++ "_INFRA_02", "Restart affected services and verify connectivity",
      base + 5, 3, some (deadline - 6), a.team_lead, [teamId a ++ "_INFRA_01"]⟩,
     ⟨teamId a ++ "_INFRA_03", "Scale up resources if needed",
      base + 3, 4, some (deadline - 4), member1 a, [teamId a ++ "_INFRA_01"]⟩]
  else []

/-- `IncidentSlaveAgent._generate_frontend_tasks`. -/
def generateFrontendTasks (a : IncidentAgent) (incident : String)
    (deadline : Int) (base : Int) : List Task :=
  let il := pyLower incident
  if pyIn "ui" il || pyIn "frontend" il || pyIn "user" il then
    [⟨teamId a ++ "_FRONT_01", "Display user-facing incident notification",
      base + 2, 2, some (deadline - 8), member0 a, []⟩,
     ⟨teamId a ++ "_FRONT_02", "Implement graceful degradation for affected features",
      base + 3, 5, some (deadline - 4), a.team_lead, []⟩]
  else []

/-- `IncidentSlaveAgent._generate_database_tasks`. -/
def generateDatabaseTasks (a : IncidentAgent) (incident : String)
    (deadline : Int) (base : Int) : List Task :=
  let il := pyLower incident
  if pyIn "database" il || pyIn "data" il || pyIn "slow" il then
    [⟨teamId a ++ "_DB_01", "Analyze database query performance",
      base + 3, 3, some (deadline - 8), member0 a, []⟩,
     ⟨teamId a ++ "_DB_02", "Optimize slow queries and add indexes",
      base + 4, 5, some (deadline - 3), a.team_lead, [teamId a ++ "_DB_01"]⟩]
  else []

/-- The generic fallback task of `_generate_expert_tasks`. -/
def investigateTask (a : IncidentAgent) (deadline : Int) (base : Int) : Task :=
  ⟨teamId a ++ "_INVESTIGATE_01",
   "Investigate incident impact on " ++ a.team_name ++ " systems",
   base, 3, some (deadline - 6), a.team_lead, []⟩

/-- `base_importance = min(10, max(1, relevance_score // 5))`.  The score
is a sum of non-negative contributions, so Python's floor division agrees
with `Int` division here. -/
def baseImportance (relevance : Int) : Int := min 10 (max 1 (relevance / 5))

/-- The concatenation of the per-expertise rule blocks built by
`_generate_expert_tasks` (the `tasks` list before the empty check). -/
def expertBlocks (a : IncidentAgent) (incident : String)
    (deadline : Int) (base : Int) : List Task :=
  (if a.expertise.contains "security"
   then generateSecurityTasks a incident deadline base else []) ++
  (if a.expertise.contains "infrastructure" || a.expertise.contains "backend"
   then generateInfrastructureTasks a incident deadline base else []) ++
  (if a.expertise.contains "frontend"
   then generateFrontendTasks a incident deadline base else []) ++
  (if a.expertise.contains "database"
   then generateDatabaseTasks a incident deadline base else [])

/-- `IncidentSlaveAgent._generate_expert_tasks`. -/
def generateExpertTasks (a : IncidentAgent) (incident : String)
    (deadline : Int) (relevance : Int) : List Task :=
  if (expertBlocks a incident deadline (baseImportance relevance)).isEmpty
  then [investigateTask a deadline (baseImportance relevance)]
  else expertBlocks a incident deadline (baseImportance relevance)

/-- The minimal "monitor" task emitted by `propose_tasks` when the
relevance score is 0. -/
def monitorTask (a : IncidentAgent) (deadline : Int) : Task :=
  ⟨teamId a ++ "_SUPPORT_01",
   "Monitor " ++ a.team_name ++ " systems for any related issues",
   1, 2, some (deadline - 4), a.team_lead, []⟩

/-- Modelled from the spec: the external AI-enhancement hook
(`gemini_integration.get_gemini_enhancer`, whose module is not part of the
analysed sources).  Per §6 of the spec it is "a capability,
enabled/disabled by external configuration, exposed as one operation:
`enhance(teamName, expertiseAreas, incidentText, candidateTasks) → tasks`",
whose result must be "a list of tasks structurally identical to the input
shape (id, description, importance, estimatedHours, deadline-or-null,
assignee-or-TBD, dependencies)"; nothing more is guaranteed about the
returned values. -/
structure Enhancer where
  enabled : Bool
  enhance : String → List String → String → List Task → List Task

/-- The first `if` of the post-pass body: backfill a missing deadline
with `deadline - max(2, (len(tasks) - i) * 2)` hours. -/
def fixDeadline (deadline : Int) (n i : ℕ) (t : Task) : Task :=
  if t.tentative_deadline = none
  then { t with tentative_deadline := some (deadline - max 2 ((n - i) * 2)) }
  else t

/-- The second `if` of the post-pass body: replace a `"TBD"` assignee by
rotating through the members (falling back to the lead). -/
def fixAssignee (lead : String) (members : List String) (i : ℕ) (t : Task) : Task :=
  if t.assigned_to = "TBD"
  then { t with assigned_to :=
          if members.isEmpty then lead else members.getD (i % members.length) lead }
  else t

/-- One step of the post-pass at the end of `propose_tasks`. -/
def fixTask (lead : String) (members : List String) (deadline : Int)
    (n i : ℕ) (t : Task) : Task :=
  fixAssignee lead members i (fixDeadline deadline n i t)

def postPassAux (lead : String) (members : List String) (deadline : Int)
    (n : ℕ) : ℕ → List Task → List Task
  | _, [] => []
  | i, t :: rest => fixTask lead members deadline n i t ::
      postPassAux lead members deadline n (i + 1) rest

/-- The `for i, task in enumerate(tasks)` post-pass of `propose_tasks`. -/
def postPass (lead : String) (members : List String) (deadline : Int)
    (tasks : List Task) : List Task :=
  postPassAux lead members deadline tasks.length 0 tasks

/-- `IncidentSlaveAgent.propose_tasks`, parameterised by the enhancement
hook `g` (see `Enhancer`). -/
def proposeTasks (g : Enhancer) (a : IncidentAgent) (incident : String)
    (deadline : Int) : List Task :=
  let relevance := calculateRelevance a.team_name a.expertise incident
  if relevance = 0 then [monitorTask a deadline]
  else
    let tasks := generateExpertTasks a incident deadline relevance
    let tasks := if g.enabled then g.enhance a.team_name a.expertise incident tasks
                 else tasks
    postPass a.team_lead a.members deadline tasks

/-- The rule-based task batch for one team: the monitor fallback at
relevance 0, otherwise the expert tasks, before any enhancement. -/
def ruleBasedTasks (a : IncidentAgent) (incident : String) (deadline : Int) :
    List Task :=
  let relevance := calculateRelevance a.team_name a.expertise incident
  if relevance = 0 then [monitorTask a deadline]
  else generateExpertTasks a incident deadline relevance

/-! ### Master agent (`master_agent.py`) -/

/-- The state of a general-query `SlaveAgent` as the master sees it
through `get_identity()`: its team name and capability tags. -/
structure QAgent where
  team_name : String
  capabilities : List String
  deriving DecidableEq, Repr

/-- The capability test of `_score_agent_relevance`:
`keyword.upper() in capability.upper() or keyword.lower() in capability.lower()`. -/
def capMatch (k c : String) : Bool :=
  pyIn (pyUpper k) (pyUpper c) || pyIn (pyLower k) (pyLower c)

/-- `any(term in query.lower() for term in ['all','every','total','overall'])`. -/
def generalQuery (query : String) : Bool :=
  ["all", "every", "total", "overall"].any (fun t => pyIn t (pyLower query))

/-- `MasterAgent._score_agent_relevance`: the accumulated
`(score, matching_capabilities)` pair.  `keywords` is the de-duplicated
keyword list produced by `_extract_query_keywords` (a Python `set`, whose
iteration order is unspecified; the score is order-independent). -/
def scoreAgent (capabilities : List String) (team_name query : String)
    (keywords : List String) : Int × List String :=
  let s1 : Int × List String := keywords.foldl (fun acc k =>
    capabilities.foldl (fun acc2 c =>
      if capMatch k c then (acc2.1 + 10, acc2.2 ++ [c]) else acc2) acc) (0, [])
  let s2 := if pyIn (pyLower team_name) (pyLower query) then
              (s1.1 + 20, s1.2 ++ ["team:" ++ team_name]) else s1
  if generalQuery query then (s2.1 + 1, s2.2) else s2

/-- The relevance score alone. -/
def scoreAgentRelevance (capabilities : List String) (team_name query : String)
    (keywords : List String) : Int :=
  (scoreAgent capabilities team_name query keywords).1

/-- `MasterAgent._select_agents`: keep the agents with positive score,
sort them by score descending (Python's stable sort), and fall back to
all agents with score 1 and no matched capabilities when none scored. -/
def selectAgents (agents : List QAgent) (query : String) (keywords : List String) :
    List (QAgent × Int × List String) :=
  let scored := agents.filterMap (fun a =>
    let sm := scoreAgent a.capabilities a.team_name query keywords
    if 0 < sm.1 then some (a, sm.1, sm.2) else none)
  let sorted := sortDesc (fun x => x.2.1) scored
  if sorted.isEmpty then agents.map (fun a => (a, 1, ([] : List String))) else sorted

/-! ### Count queries (`SlaveAgent._count_occurrences`)

The term-extraction regexes `how many times.*?(\w+)`, `count.*?(\w+)`,
`occurrences of (\w+)` (IGNORECASE) and `\b([A-Z][A-Z]+)\b` are modelled
character by character with the semantics of CPython's `re.findall`:
leftmost match, lazy gap (`.*?` stops at the first position where `\w+`
can start and never crosses a newline), greedy `\w+` capture, scanning
resuming after each match. -/

/-- Case-insensitive character equality (ASCII, as `re.IGNORECASE`). -/
def ciEq (a b : Char) : Bool := lowChar a = lowChar b

/-- Case-insensitive prefix test. -/
def ciPrefix : List Char → List Char → Bool
  | [], _ => true
  | _ :: _, [] => false
  | a :: s, b :: t => ciEq a b && ciPrefix s t

/-- Advance over the lazy gap `.*?` to the start of the next `\w+` match:
returns the suffix beginning at the first word character, failing at a
newline (which `.` does not match) or at the end of the text. -/
def dropToWord : List Char → Option (List Char)
  | [] => none
  | c :: t => if isWordChar c then some (c :: t)
              else if c = '\n' then none else dropToWord t

/-- Where `(\w+)` must start after the phrase: after the lazy gap when
`gap` is set (patterns `how many times.*?(\w+)`, `count.*?(\w+)`),
immediately otherwise (pattern `occurrences of (\w+)`). -/
def gapSeek (gap : Bool) (l : List Char) : Option (List Char) :=
  if gap then dropToWord l
  else match l with
    | c :: t => if isWordChar c then some (c :: t) else none
    | [] => none

/-- `re.findall` of a pattern `<phrase>…(\w+)` (case-insensitive): scan
for the phrase, seek the start of the capture, capture the maximal word
run, and resume scanning after it.  Recursion is driven by a fuel
counter; every recursive call strictly shortens the text (each step
consumes at least the current head character, and a successful capture
consumes at least one word character of the suffix it returns), so fuel
equal to the text length — as `phraseCaptures` supplies — never runs
out. -/
def phraseCapturesAux (gap : Bool) (phrase : List Char) :
    ℕ → List Char → List (List Char)
  | 0, _ => []
  | _ + 1, [] => []
  | fuel + 1, c :: rest =>
    if ciPrefix phrase (c :: rest) then
      match gapSeek gap ((c :: rest).drop phrase.length) with
      | some suf =>
        suf.takeWhile isWordChar ::
          phraseCapturesAux gap phrase fuel
            (suf.drop (suf.takeWhile isWordChar).length)
      | none => phraseCapturesAux gap phrase fuel rest
    else phraseCapturesAux gap phrase fuel rest

def phraseCaptures (gap : Bool) (phrase : List Char) (l : List Char) :
    List (List Char) :=
  phraseCapturesAux gap phrase l.length l

/-- Maximal word-character runs of the text, via an accumulator. -/
def wordRunsAux : List Char → List Char → List (List Char)
  | acc, [] => if acc.isEmpty then [] else [acc.reverse]
  | acc, c :: t =>
    if isWordChar c then wordRunsAux (c :: acc) t
    else if acc.isEmpty then wordRunsAux [] t
    else acc.reverse :: wordRunsAux [] t

def wordRuns (l : List Char) : List (List Char) := wordRunsAux [] l

/-- `re.findall(r'\b([A-Z][A-Z]+)\b', query)`: the matches are exactly
the maximal word runs made of uppercase letters only and of length at
least 2 (a run containing a lowercase letter, digit or underscore offers
no internal word boundary, so it cannot match). -/
def capsWords (query : String) : List String :=
  ((wordRuns query.data).filter
    (fun r => 2 ≤ r.length && r.all isUpperAlpha)).map (fun r => (⟨r⟩ : String))

/-- Count of case-insensitive whole-word occurrences of `term` (a run of
word characters) in `content`: positions where the term matches and both
neighbours (if any) are non-word characters.  Distinct whole-word
occurrences of a word-character term cannot overlap, so this equals the
`re.findall(r'\b<term>\b', content, re.IGNORECASE)` length. -/
def wwCountAux (term : List Char) (prev : Option Char) : List Char → ℕ
  | [] => 0
  | c :: rest =>
    let okBefore := match prev with
      | none => true
      | some pc => !isWordChar pc
    let okAfter := match (c :: rest).drop term.length with
      | [] => true
      | nc :: _ => !isWordChar nc
    (if okBefore && ciPrefix term (c :: rest) && okAfter then 1 else 0) +
      wwCountAux term (some c) rest

def wholeWordCount (term content : String) : ℕ :=
  wwCountAux term.data none content.data

/-- De-duplication preserving first occurrences (Python's
`set(terms_to_count)`; its iteration order is unspecified, we fix
first-extraction order — every property proved below is
order-independent). -/
def dedupFirst : List String → List String
  | [] => []
  | x :: t => x :: (dedupFirst t).filter (fun y => y ≠ x)

/-- The term-extraction step of `SlaveAgent._count_occurrences`. -/
def countTerms (query : String) : List String :=
  let p1 := (phraseCaptures true "how many times".data query.data).map
    (fun r => (⟨r⟩ : String))
  let p2 := (phraseCaptures true "count".data query.data).map
    (fun r => (⟨r⟩ : String))
  let p3 := (phraseCaptures false "occurrences of ".data query.data).map
    (fun r => (⟨r⟩ : String))
  dedupFirst (p1 ++ p2 ++ p3 ++ capsWords query)

/-- The payload of `SlaveAgent._count_occurrences`: the per-term counts
and `total_mentions`. -/
structure CountResult where
  results : List (String × ℕ)
  total_mentions : ℕ
  deriving DecidableEq, Repr

/-- `SlaveAgent._count_occurrences`. -/
def countOccurrences (query content : String) : CountResult :=
  let results := (countTerms query).map (fun t => (t, wholeWordCount t content))
  ⟨results, (results.map (fun r => r.2)).sum⟩

/-! ### Team-name extraction (`SlaveAgent._load_team_info`)

`re.search(r'Team Name:\s*(.+)', content)`: leftmost occurrence of the
literal, then greedy `\s*` (which may cross newlines) followed by a
non-empty capture of non-newline characters, with the regex engine's
backtracking; when the tail cannot match, the search resumes at the next
occurrence of the literal; when no occurrence matches, the field keeps
its default `""`. -/

/-- Try `(.+)` at offset `w`: succeeds when a non-newline character is
present there. -/
def tryCapture (rest : List Char) (w : ℕ) : Option (List Char) :=
  match rest.drop w with
  | [] => none
  | c :: t => if c = '\n' then none else some ((c :: t).takeWhile (fun d => d ≠ '\n'))

/-- Backtracking for greedy `\s*`: the largest whitespace prefix length
`w` at which `(.+)` still matches. -/
def seekCapture (rest : List Char) : ℕ → Option (List Char)
  | 0 => tryCapture rest 0
  | w + 1 => (tryCapture rest (w + 1)).orElse (fun _ => seekCapture rest w)

/-- Match `\s*(.+)` against `rest`. -/
def matchTail (rest : List Char) : Option (List Char) :=
  seekCapture rest (rest.takeWhile isPySpace).length

/-- Leftmost-match search for `Team Name:\s*(.+)`. -/
def searchTeamName : List Char → Option (List Char)
  | [] => none
  | c :: rest =>
    if "Team Name:".data.isPrefixOf (c :: rest) then
      match matchTail ((c :: rest).drop "Team Name:".data.length) with
      | some g => some g
      | none => searchTeamName rest
    else searchTeamName rest

/-- The `team_name` field after `_load_team_info` (both slave agents use
the same extraction): the stripped capture, or `""` when the regex does
not match. -/
def loadTeamName (content : String) : String :=
  match searchTeamName content.data with
  | some g => ⟨pyStrip g⟩
  | none => ""

/-! ### Incident master agent (`incident_master_agent.py`) -/

/-- Python `s[:n] + "..." if len(s) > n else s`. -/
def strTrunc (n : ℕ) (s : String) : String :=
  if n < s.data.length then (⟨s.data.take n⟩ : String) ++ "..." else s

/-- A node of the task graph.  The incident node carries no `team` or
`deadline` key, hence the `Option`s. -/
structure GNode where
  id : String
  label : String
  kind : String
  importance : Int
  team : Option String
  deadline : Option Int
  deriving DecidableEq, Repr

/-- An edge of the task graph.  Only dependency edges carry a `type` key
(`"dependency"`); the task→incident edges carry none, hence the
`Option`. -/
structure GEdge where
  src : String
  dst : String
  weight : Int
  label : String
  kind : Option String
  deriving DecidableEq, Repr

def taskNode (t : Task) : GNode :=
  ⟨t.task_id, strTrunc 40 t.description, "task", t.importance,
   some t.assigned_to, t.tentative_deadline⟩

def relevanceEdge (t : Task) : GEdge :=
  ⟨t.task_id, "INCIDENT", t.importance, "Priority: " ++ toString t.importance, none⟩

def dependencyEdge (t : Task) (d : String) : GEdge :=
  ⟨d, t.task_id, 5, "depends on", some "dependency"⟩

/-- `IncidentMasterAgent._build_task_graph`. -/
def buildTaskGraph (all_tasks : List Task) (incident : String) :
    List GNode × List GEdge :=
  (⟨"INCIDENT", strTrunc 50 incident, "incident", 10, none, none⟩ ::
     all_tasks.map taskNode,
   all_tasks.flatMap (fun t => relevanceEdge t :: t.dependencies.map (dependencyEdge t)))

/-- One `Assignment` row of `_create_assignments`. -/
structure Assignment where
  team_name : String
  task_count : ℕ
  total_estimated_hours : Int
  average_importance : ℚ
  tasks : List Task
  deriving DecidableEq, Repr

/-- Round to the nearest integer, ties to even — the rounding of Python's
built-in `round`.  (For every reachable team average the binary double
computed by the source is either exact or far enough from a tie for the
exact rational rounding used here to agree with it.) -/
def roundHalfEven (q : ℚ) : ℤ :=
  if q - ⌊q⌋ < 1/2 then ⌊q⌋
  else if 1/2 < q - ⌊q⌋ then ⌊q⌋ + 1
  else if ⌊q⌋ % 2 = 0 then ⌊q⌋ else ⌊q⌋ + 1

/-- Python `round(x, 2)`. -/
def round2 (q : ℚ) : ℚ := (roundHalfEven (100 * q) : ℚ) / 100

/-- The average importance of a task list, before rounding. -/
def exactAvg (tasks : List Task) : ℚ :=
  ((tasks.map (fun t => t.importance)).sum : ℚ) / (tasks.length : ℚ)

/-- The assignment row built for one team (for a non-empty task list). -/
def mkAssignment (team_name : String) (tasks : List Task) : Assignment :=
  { team_name := team_name,
    task_count := tasks.length,
    total_estimated_hours := (tasks.map (fun t => t.estimated_hours)).sum,
    average_importance := round2 (exactAvg tasks),
    tasks := sortDesc (fun t => t.importance) tasks }

/-- `IncidentMasterAgent._create_assignments`: one row per team with a
non-empty task list (teams iterated in `team_tasks` insertion order, i.e.
proposal order), each row's tasks sorted by importance descending, the
rows sorted by average importance descending; both sorts are Python's
stable sort. -/
def assignmentRows (team_tasks : List (String × List Task)) : List Assignment :=
  team_tasks.filterMap (fun p =>
    if p.2.isEmpty then none else some (mkAssignment p.1 p.2))

/-- `IncidentMasterAgent._create_assignments`. -/
def createAssignments (team_tasks : List (String × List Task)) : List Assignment :=
  sortDesc (fun a => a.average_importance) (assignmentRows team_tasks)

/-! ## Claim C1: the general-query relevance score -/

/-- The number of (signal term, capability) pairs passing the code's
case-insensitive containment test. -/
def pairCount (caps keywords : List String) : ℕ :=
  (keywords.map (fun k => (caps.filter (fun c => capMatch k c)).length)).sum

theorem capFold_fst (k : String) (caps : List String) :
    ∀ (s : Int) (m : List String),
      (caps.foldl (fun acc2 c =>
          if capMatch k c then (acc2.1 + 10, acc2.2 ++ [c]) else acc2) (s, m)).1 =
        s + 10 * ((caps.filter (fun c => capMatch k c)).length : Int) := by
  induction caps with
  | nil => intro s m; simp
  | cons c t ih =>
    intro s m
    by_cases h : capMatch k c
    · simp only [List.foldl_cons, if_pos h, List.filter_cons, h, ite_true, ih,
        List.length_cons]
      push_cast; ring
    · simp only [List.foldl_cons, if_neg h, List.filter_cons, h, ite_false, ih,
        Bool.false_eq_true]

theorem keywordFold_fst (caps : List String) (kws : List String) :
    ∀ (s : Int) (m : List String),
      (kws.foldl (fun acc k => caps.foldl (fun acc2 c =>
          if capMatch k c then (acc2.1 + 10, acc2.2 ++ [c]) else acc2) acc) (s, m)).1 =
        s + 10 * (pairCount caps kws : Int) := by
  induction kws with
  | nil => intro s m; simp [pairCount]
  | cons k t ih =>
    intro s m
    have heta : (caps.foldl (fun acc2 c =>
        if capMatch k c then (acc2.1 + 10, acc2.2 ++ [c]) else acc2) (s, m)) =
        ((caps.foldl (fun acc2 c =>
          if capMatch k c then (acc2.1 + 10, acc2.2 ++ [c]) else acc2) (s, m)).1,
         (caps.foldl (fun acc2 c =>
          if capMatch k c then (acc2.1 + 10, acc2.2 ++ [c]) else acc2) (s, m)).2) := rfl
    simp only [List.foldl_cons]
    rw [heta, ih, capFold_fst]
    simp only [pairCount, List.map_cons, List.sum_cons]
    push_cast; ring

/-- The closed form of `_score_agent_relevance`'s score: ten points per
matching (keyword, capability) pair, twenty for the team name occurring
in the query, one for a generality marker. -/
theorem scoreAgentRelevance_closed (caps : List String) (team_name query : String)
    (kws : List String) :
    scoreAgentRelevance caps team_name query kws =
      10 * (pairCount caps kws : Int) +
      (if pyIn (pyLower team_name) (pyLower query) then 20 else 0) +
      (if generalQuery query then 1 else 0) := by
  unfold scoreAgentRelevance scoreAgent
  by_cases h1 : pyIn (pyLower team_name) (pyLower query) <;>
    by_cases h2 : generalQuery query <;>
      simp [h1, h2, keywordFold_fst]

/-- The general-query relevance formula exactly as the spec words it:
10 per capability whose text contains, or is contained by, any signal
term (each matching capability counted once), plus the team-name and
generality bonuses. -/
def specScoreC1 (caps : List String) (team_name query : String)
    (kws : List String) : Int :=
  10 * ((caps.filter (fun c => kws.any (fun k =>
      pyIn (pyLower k) (pyLower c) || pyIn (pyLower c) (pyLower k)))).length : Int) +
  (if pyIn (pyLower team_name) (pyLower query) then 20 else 0) +
  (if generalQuery query then 1 else 0)

/-- C1 fails on the code: for the profile capability `topic:SECURITY`
(derived from a team file mentioning "security") and the query
"Is SECURITY a security issue for the team?" (signal terms `SECURITY`,
`issue`, `security`, `team`), the code scores the single capability once
per matching keyword — 20 points — where the claimed formula gives 10. -/
theorem c1_per_capability_counterexample :
    scoreAgentRelevance ["topic:SECURITY"] "Alpha"
        "Is SECURITY a security issue for the team?"
        ["SECURITY", "issue", "security", "team"] ≠
      specScoreC1 ["topic:SECURITY"] "Alpha"
        "Is SECURITY a security issue for the team?"
        ["SECURITY", "issue", "security", "team"] := by decide

/-- C1 (amended): the general-query relevance score equals 10 times the
number of (signal term, capability) pairs in which the term's text is
contained in the capability's text case-insensitively (a capability
matching k signal terms contributes 10·k), plus 20 if the team name
appears as a substring of the query, plus 1 if the query contains one of
the generality markers all, every, total, overall. -/
theorem c1_score_counts_pairs (caps : List String) (team_name query : String)
    (kws : List String) :
    scoreAgentRelevance caps team_name query kws =
      10 * (pairCount caps kws : Int) +
      (if pyIn (pyLower team_name) (pyLower query) then 20 else 0) +
      (if generalQuery query then 1 else 0) :=
  scoreAgentRelevance_closed caps team_name query kws

/-! ## Claim C9: agent selection and its fallback -/

/-- The positively-scored agents, exactly as `_select_agents` collects
them before sorting. -/
def positivelyScored (agents : List QAgent) (query : String)
    (kws : List String) : List (QAgent × Int × List String) :=
  agents.filterMap (fun a =>
    let sm := scoreAgent a.capabilities a.team_name query kws
    if 0 < sm.1 then some (a, sm.1, sm.2) else none)

/-- C9: the general-query coordinator selects exactly the profiles with
strictly positive relevance score, sorted by score descending; when no
profile scores positive it selects all loaded profiles with uniform score
1 and an empty matched-capability list; hence the selection is non-empty
whenever at least one profile loaded. -/
theorem c9_selection (agents : List QAgent) (query : String) (kws : List String) :
    (positivelyScored agents query kws ≠ [] →
      (selectAgents agents query kws).Perm (positivelyScored agents query kws) ∧
      (selectAgents agents query kws).Pairwise (fun x y => y.2.1 ≤ x.2.1)) ∧
    (positivelyScored agents query kws = [] →
      selectAgents agents query kws = agents.map (fun a => (a, 1, ([] : List String)))) ∧
    (agents ≠ [] → selectAgents agents query kws ≠ []) := by
  have hperm := sortDesc_perm (fun x : QAgent × Int × List String => x.2.1)
    (positivelyScored agents query kws)
  have hsel : selectAgents agents query kws =
      if (sortDesc (fun x : QAgent × Int × List String => x.2.1)
            (positivelyScored agents query kws)).isEmpty
      then agents.map (fun a => (a, 1, ([] : List String)))
      else sortDesc (fun x => x.2.1) (positivelyScored agents query kws) := rfl
  by_cases hpos : positivelyScored agents query kws = []
  · have hempty : (sortDesc (fun x : QAgent × Int × List String => x.2.1)
        (positivelyScored agents query kws)) = [] := by
      rw [hpos]; rfl
    refine ⟨fun hc => absurd hpos hc, fun _ => ?_, fun hne => ?_⟩
    · rw [hsel, hempty]; simp
    · rw [hsel, hempty]
      simp only [List.isEmpty_nil, if_true]
      intro hmap
      exact hne (List.map_eq_nil_iff.mp hmap)
  · have hne : (sortDesc (fun x : QAgent × Int × List String => x.2.1)
        (positivelyScored agents query kws)) ≠ [] := by
      intro hn
      exact hpos (hperm.symm.trans (hn ▸ List.Perm.refl []) |>.eq_nil)
    have hemp : (sortDesc (fun x : QAgent × Int × List String => x.2.1)
        (positivelyScored agents query kws)).isEmpty = false := by
      rw [List.isEmpty_eq_false_iff_exists_mem]
      rcases List.exists_mem_of_ne_nil _ hne with ⟨x, hx⟩
      exact ⟨x, hx⟩
    refine ⟨fun _ => ?_, fun hc => absurd hc hpos, fun _ => ?_⟩
    · rw [hsel, hemp]
      exact ⟨hperm, sortDesc_pairwise _ _⟩
    · rw [hsel, hemp]
      simp only [Bool.false_eq_true, if_false]
      exact hne

/-- Witness for C9 at a concrete run: one agent tagged `has:meetings`
scores 11 (> 0) on "all meetings" with keyword `meeting`, so the
selection is non-empty. -/
theorem c9_selection_witness :
    selectAgents [⟨"Alpha", ["has:meetings"]⟩] "all meetings" ["meeting"] ≠ [] :=
  (c9_selection [⟨"Alpha", ["has:meetings"]⟩] "all meetings" ["meeting"]).2.2
    (by decide)

/-! ## Claim C2: task importance bounds -/

theorem mem_ite_nil {t : Task} {c : Prop} [Decidable c] {l : List Task}
    (h : t ∈ (if c then l else [])) : t ∈ l := by
  split at h
  · exact h
  · simp at h

theorem importance_security {a : IncidentAgent} {inc : String} {dl b : Int} :
    ∀ t ∈ generateSecurityTasks a inc dl b,
      ∃ off : Int, 0 ≤ off ∧ off ≤ 5 ∧ t.importance = b + off := by
  intro t ht
  simp only [generateSecurityTasks] at ht
  split at ht
  · simp only [List.mem_cons, List.not_mem_nil, or_false] at ht
    rcases ht with h | h | h
    · exact ⟨3, by norm_num, by norm_num, by rw [h]⟩
    · exact ⟨2, by norm_num, by norm_num, by rw [h]⟩
    · exact ⟨4, by norm_num, by norm_num, by rw [h]⟩
  · simp at ht

theorem importance_infrastructure {a : IncidentAgent} {inc : String} {dl b : Int} :
    ∀ t ∈ generateInfrastructureTasks a inc dl b,
      ∃ off : Int, 0 ≤ off ∧ off ≤ 5 ∧ t.importance = b + off := by
  intro t ht
  simp only [generateInfrastructureTasks] at ht
  split at ht
  · simp only [List.mem_cons, List.not_mem_nil, or_false] at ht
    rcases ht with h | h | h
    · exact ⟨4, by norm_num, by norm_num, by rw [h]⟩
    · exact ⟨5, by norm_num, by norm_num, by rw [h]⟩
    · exact ⟨3, by norm_num, by norm_num, by rw [h]⟩
  · simp at ht

theorem importance_frontend {a : IncidentAgent} {inc : String} {dl b : Int} :
    ∀ t ∈ generateFrontendTasks a inc dl b,
      ∃ off : Int, 0 ≤ off ∧ off ≤ 5 ∧ t.importance = b + off := by
  intro t ht
  simp only [generateFrontendTasks] at ht
  split at ht
  · simp only [List.mem_cons, List.not_mem_nil, or_false] at ht
    rcases ht with h | h
    · exact ⟨2, by norm_num, by norm_num, by rw [h]⟩
    · exact ⟨3, by norm_num, by norm_num, by rw [h]⟩
  · simp at ht

theorem importance_database {a : IncidentAgent} {inc : String} {dl b : Int} :
    ∀ t ∈ generateDatabaseTasks a inc dl b,
      ∃ off : Int, 0 ≤ off ∧ off ≤ 5 ∧ t.importance = b + off := by
  intro t ht
  simp only [generateDatabaseTasks] at ht
  split at ht
  · simp only [List.mem_cons, List.not_mem_nil, or_false] at ht
    rcases ht with h | h
    · exact ⟨3, by norm_num, by norm_num, by rw [h]⟩
    · exact ⟨4, by norm_num, by norm_num, by rw [h]⟩
  · simp at ht

theorem importance_expert {a : IncidentAgent} {inc : String} {dl r : Int} :
    ∀ t ∈ generateExpertTasks a inc dl r,
      ∃ off : Int, 0 ≤ off ∧ off ≤ 5 ∧ t.importance = baseImportance r + off := by
  intro t ht
  simp only [generateExpertTasks] at ht
  split at ht
  · simp only [List.mem_cons, List.not_mem_nil, or_false] at ht
    exact ⟨0, by norm_num, by norm_num, by rw [ht]; simp [investigateTask]⟩
  · simp only [expertBlocks] at ht
    rcases List.mem_append.mp ht with h | h
    · rcases List.mem_append.mp h with h | h
      · rcases List.mem_append.mp h with h | h
        · exact importance_security t (mem_ite_nil h)
        · exact importance_infrastructure t (mem_ite_nil h)
      · exact importance_frontend t (mem_ite_nil h)
    · exact importance_database t (mem_ite_nil h)

theorem baseImportance_bounds (r : Int) :
    1 ≤ baseImportance r ∧ baseImportance r ≤ 10 :=
  ⟨le_min (by norm_num) (le_max_left 1 _), min_le_left _ _⟩

/-- A concrete reachable team: name `Alpha`, lead `Lee`, two members,
expertise derived by the classifier from a team file mentioning
security. -/
def agentA : IncidentAgent :=
  ⟨"Alpha", "Lee", ["M1", "M2"], identifyExpertise "We handle security and encryption."⟩

/-- C2 fails on the code: the rule tables add their fixed offsets to the
already-clamped `base_importance` without re-clamping, so for `agentA`
and the incident "Security breach detected in Alpha systems" (relevance
50, base importance 10) the security tasks get importances 13, 12 and
14 — not in 1..10. -/
theorem c2_importance_counterexample :
    ((ruleBasedTasks agentA "Security breach detected in Alpha systems" 100).all
      (fun t => decide (t.importance ≤ 10))) = false := by decide

/-- C2 (amended): every rule-based task's importance is
`baseImportance + a fixed offset between 0 and 5` where `baseImportance`
is `relevance // 5` clamped to 1..10; only the base is clamped, so the
importance lies between 1 and 15 and may exceed 10. -/
theorem c2_importance_bounds (a : IncidentAgent) (incident : String) (deadline : Int) :
    ∀ t ∈ ruleBasedTasks a incident deadline,
      1 ≤ t.importance ∧ t.importance ≤ 15 ∧
      (calculateRelevance a.team_name a.expertise incident ≠ 0 →
        ∃ off : Int, 0 ≤ off ∧ off ≤ 5 ∧
          t.importance =
            baseImportance (calculateRelevance a.team_name a.expertise incident) + off) := by
  intro t ht
  simp only [ruleBasedTasks] at ht
  split at ht
  case isTrue h0 =>
    simp only [List.mem_cons, List.not_mem_nil, or_false] at ht
    subst ht
    exact ⟨by norm_num [monitorTask], by norm_num [monitorTask],
      fun hc => absurd h0 hc⟩
  case isFalse h0 =>
    rcases importance_expert t ht with ⟨off, h1, h2, h3⟩
    rcases baseImportance_bounds
      (calculateRelevance a.team_name a.expertise incident) with ⟨hb1, hb2⟩
    exact ⟨by omega, by omega, fun _ => ⟨off, h1, h2, h3⟩⟩

/-- Witness for C2 at a concrete emitted task (the security-audit task of
`agentA`, importance 13 = base 10 + offset 3). -/
theorem c2_importance_bounds_witness :
    1 ≤ (⟨"Alpha_SEC_01", "Conduct immediate security audit of affected systems",
          13, 4, some 92, "M1", []⟩ : Task).importance ∧
    (⟨"Alpha_SEC_01", "Conduct immediate security audit of affected systems",
          13, 4, some 92, "M1", []⟩ : Task).importance ≤ 15 ∧
    (calculateRelevance agentA.team_name agentA.expertise
        "Security breach detected in Alpha systems" ≠ 0 →
      ∃ off : Int, 0 ≤ off ∧ off ≤ 5 ∧
        (⟨"Alpha_SEC_01", "Conduct immediate security audit of affected systems",
          13, 4, some 92, "M1", []⟩ : Task).importance =
          baseImportance (calculateRelevance agentA.team_name agentA.expertise
            "Security breach detected in Alpha systems") + off) :=
  c2_importance_bounds agentA "Security breach detected in Alpha systems" 100
    ⟨"Alpha_SEC_01", "Conduct immediate security audit of affected systems",
      13, 4, some 92, "M1", []⟩ (by decide)

/-! ## Claim C4: dependency well-formedness -/

/-- `wfBatch seen tasks` checks that walking the batch left to right,
every dependency of every task names a task id already seen — i.e. every
dependency is a backward reference into the same batch (given
`seen = []`), which rules out dangling, cross-team and forward references
and, a fortiori, cycles. -/
def wfBatch (seen : List String) : List Task → Bool
  | [] => true
  | t :: rest => t.dependencies.all (fun d => seen.contains d) &&
      wfBatch (t.task_id :: seen) rest

theorem wfBatch_append (l1 : List Task) : ∀ (l2 : List Task) (seen : List String),
    wfBatch seen (l1 ++ l2) =
      (wfBatch seen l1 && wfBatch (l1.foldl (fun s t => t.task_id :: s) seen) l2) := by
  induction l1 with
  | nil => intro l2 seen; simp [wfBatch]
  | cons t r ih => intro l2 seen; simp [wfBatch, ih, Bool.and_assoc]

theorem wfBatch_concat {l1 l2 : List Task}
    (h1 : ∀ s, wfBatch s l1 = true) (h2 : ∀ s, wfBatch s l2 = true) :
    ∀ s, wfBatch s (l1 ++ l2) = true := by
  intro s
  rw [wfBatch_append]
  simp [h1 s, h2 _]

theorem wfBatch_ite {c : Prop} [Decidable c] {l : List Task}
    (h : ∀ s, wfBatch s l = true) : ∀ s, wfBatch s (if c then l else []) = true := by
  intro s
  split
  · exact h s
  · rfl

theorem wfBatch_security (a : IncidentAgent) (inc : String) (dl b : Int) :
    ∀ s, wfBatch s (generateSecurityTasks a inc dl b) = true := by
  intro s
  simp only [generateSecurityTasks]
  split
  · simp [wfBatch]
  · rfl

theorem wfBatch_infrastructure (a : IncidentAgent) (inc : String) (dl b : Int) :
    ∀ s, wfBatch s (generateInfrastructureTasks a inc dl b) = true := by
  intro s
  simp only [generateInfrastructureTasks]
  split
  · simp [wfBatch]
  · rfl

theorem wfBatch_frontend (a : IncidentAgent) (inc : String) (dl b : Int) :
    ∀ s, wfBatch s (generateFrontendTasks a inc dl b) = true := by
  intro s
  simp only [generateFrontendTasks]
  split
  · simp [wfBatch]
  · rfl

theorem wfBatch_database (a : IncidentAgent) (inc : String) (dl b : Int) :
    ∀ s, wfBatch s (generateDatabaseTasks a inc dl b) = true := by
  intro s
  simp only [generateDatabaseTasks]
  split
  · simp [wfBatch]
  · rfl

/-- C4: in every rule-based task batch, every dependency entry is the id
of a task appearing earlier in the same team's batch — no dangling,
cross-team or forward references and no cycles (the dependency relation
is a subrelation of "strictly earlier in the batch"). -/
theorem c4_dependencies_backward (a : IncidentAgent) (incident : String)
    (deadline : Int) :
    wfBatch [] (ruleBasedTasks a incident deadline) = true := by
  simp only [ruleBasedTasks]
  split
  · simp [wfBatch, monitorTask]
  · simp only [generateExpertTasks]
    split
    · simp [wfBatch, investigateTask]
    · simp only [expertBlocks]
      exact wfBatch_concat
        (wfBatch_concat
          (wfBatch_concat (wfBatch_ite (wfBatch_security a incident deadline _))
            (wfBatch_ite (wfBatch_infrastructure a incident deadline _)))
          (wfBatch_ite (wfBatch_frontend a incident deadline _)))
        (wfBatch_ite (wfBatch_database a incident deadline _)) []

/-! ## Claim C5: the task graph invariant -/

theorem depEdges_filter_none (t : Task) (ds : List String) :
    (ds.map (dependencyEdge t)).filter (fun e => decide (e.kind = Option.none)) = [] := by
  induction ds with
  | nil => rfl
  | cons d r ih => simp [List.filter_cons, dependencyEdge, ih]

theorem taskNodes_filter_incident (ts : List Task) :
    (ts.map taskNode).filter (fun n => decide (n.kind = "incident")) = [] := by
  induction ts with
  | nil => rfl
  | cons t r ih => simp [List.filter_cons, taskNode, ih]

theorem taskNodes_filter_task (ts : List Task) :
    (ts.map taskNode).filter (fun n => decide (n.kind = "task")) = ts.map taskNode := by
  induction ts with
  | nil => rfl
  | cons t r ih => simp [List.filter_cons, taskNode, ih]

theorem relEdges_count (ts : List Task) :
    ((ts.flatMap (fun t => relevanceEdge t :: t.dependencies.map (dependencyEdge t))).filter
      (fun e => decide (e.kind = Option.none))).length = ts.length := by
  induction ts with
  | nil => rfl
  | cons t r ih =>
    rw [List.flatMap_cons, List.filter_append, List.length_append, ih]
    simp [List.filter_cons, relevanceEdge, depEdges_filter_none]
    omega

/-- C5: the task graph contains exactly one incident node; the number of
relevance edges (the untyped edges, each pointing at the incident node
and weighted by its task's importance) equals the number of task nodes,
which equals the total number of tasks collected across all teams; and
every dependency edge carries fixed weight 5. -/
theorem c5_task_graph (all_tasks : List Task) (incident : String) :
    (((buildTaskGraph all_tasks incident).1.filter
        (fun n => decide (n.kind = "incident"))).length = 1) ∧
    (((buildTaskGraph all_tasks incident).2.filter
        (fun e => decide (e.kind = Option.none))).length = all_tasks.length) ∧
    (((buildTaskGraph all_tasks incident).1.filter
        (fun n => decide (n.kind = "task"))).length = all_tasks.length) ∧
    (∀ e ∈ (buildTaskGraph all_tasks incident).2, e.kind = Option.none →
      e.dst = "INCIDENT" ∧ ∃ t ∈ all_tasks, e = relevanceEdge t ∧ e.weight = t.importance) ∧
    (∀ e ∈ (buildTaskGraph all_tasks incident).2, e.kind = some "dependency" →
      e.weight = 5) := by
  refine ⟨?_, ?_, ?_, ?_, ?_⟩
  · simp [buildTaskGraph, List.filter_cons, taskNodes_filter_incident]
  · simpa [buildTaskGraph] using relEdges_count all_tasks
  · simp [buildTaskGraph, List.filter_cons, taskNodes_filter_task]
  · intro e he hk
    simp only [buildTaskGraph, List.mem_flatMap] at he
    rcases he with ⟨t, hmem, he⟩
    rcases List.mem_cons.mp he with he | he
    · subst he
      exact ⟨rfl, t, hmem, rfl, rfl⟩
    · rcases List.mem_map.mp he with ⟨d, _, he⟩
      rw [← he] at hk
      simp [dependencyEdge] at hk
  · intro e he hk
    simp only [buildTaskGraph, List.mem_flatMap] at he
    rcases he with ⟨t, hmem, he⟩
    rcases List.mem_cons.mp he with he | he
    · subst he
      simp [relevanceEdge] at hk
    · rcases List.mem_map.mp he with ⟨d, _, he⟩
      rw [← he]
      rfl

/-- Witness for C5 at a concrete run: the graph over one task with one
dependency has one incident node, one relevance edge pointing at it, and
a weight-5 dependency edge. -/
theorem c5_task_graph_witness :
    ((buildTaskGraph [⟨"T_SEC_02", "Review logs", 7, 3, some 94, "M2", ["T_SEC_01"]⟩]
        "Security breach").2.filter
      (fun e => decide (e.kind = Option.none))).length = 1 ∧
    (∀ e ∈ (buildTaskGraph [⟨"T_SEC_02", "Review logs", 7, 3, some 94, "M2", ["T_SEC_01"]⟩]
        "Security breach").2, e.kind = some "dependency" → e.weight = 5) :=
  ⟨(c5_task_graph [⟨"T_SEC_02", "Review logs", 7, 3, some 94, "M2", ["T_SEC_01"]⟩]
      "Security breach").2.1,
   (c5_task_graph [⟨"T_SEC_02", "Review logs", 7, 3, some 94, "M2", ["T_SEC_01"]⟩]
      "Security breach").2.2.2.2⟩

/-! ## Claim C6: the zero-relevance monitor task -/

theorem isPrefixOf_append_self (l m : List Char) : l.isPrefixOf (l ++ m) = true :=
  List.isPrefixOf_iff_prefix.mpr (List.prefix_append l m)

theorem isSub_of_isPrefixOf {n h : List Char} (hp : n.isPrefixOf h = true) :
    isSub n h = true := by
  cases h with
  | nil =>
    cases n with
    | nil => rfl
    | cons c t => simp [List.isPrefixOf] at hp
  | cons c t => simp [isSub, hp]

theorem pyIn_monitor (a : IncidentAgent) (dl : Int) :
    pyIn "Monitor" (monitorTask a dl).description = true := by
  have h1 : (monitorTask a dl).description.data =
      "Monitor".data ++
        (' ' :: (a.team_name.data ++ " systems for any related issues".data)) := by
    show (("Monitor " ++ a.team_name) ++ " systems for any related issues").data = _
    rw [String.data_append, String.data_append]
    rfl
  unfold pyIn
  rw [h1]
  exact isSub_of_isPrefixOf (isPrefixOf_append_self _ _)

/-- C6: for every team whose incident-relevance score is 0, `propose_tasks`
emits exactly one task — importance 1, 2 estimated hours, deadline 4 hours
before the incident deadline, assigned to the team lead, no dependencies,
description containing "Monitor" — regardless of the enhancement hook
(the zero-relevance path returns before the hook runs). -/
theorem c6_zero_relevance_monitor (g : Enhancer) (a : IncidentAgent)
    (incident : String) (deadline : Int)
    (h : calculateRelevance a.team_name a.expertise incident = 0) :
    proposeTasks g a incident deadline = [monitorTask a deadline] ∧
    (monitorTask a deadline).importance = 1 ∧
    (monitorTask a deadline).estimated_hours = 2 ∧
    (monitorTask a deadline).tentative_deadline = some (deadline - 4) ∧
    (monitorTask a deadline).assigned_to = a.team_lead ∧
    (monitorTask a deadline).dependencies = [] ∧
    pyIn "Monitor" (monitorTask a deadline).description = true := by
  refine ⟨?_, rfl, rfl, rfl, rfl, rfl, pyIn_monitor a deadline⟩
  simp [proposeTasks, h]

/-- Witness for C6: the team `Alpha` (no expertise, name absent from the
incident text) scores 0 against "printer on fire" and gets exactly the
monitor task. -/
theorem c6_zero_relevance_monitor_witness :
    proposeTasks ⟨false, fun _ _ _ ts => ts⟩ ⟨"Alpha", "Lee", [], []⟩
        "printer on fire" 10 = [monitorTask ⟨"Alpha", "Lee", [], []⟩ 10] ∧
    (monitorTask ⟨"Alpha", "Lee", [], []⟩ 10).importance = 1 ∧
    (monitorTask ⟨"Alpha", "Lee", [], []⟩ 10).estimated_hours = 2 ∧
    (monitorTask ⟨"Alpha", "Lee", [], []⟩ 10).tentative_deadline = some (10 - 4) ∧
    (monitorTask ⟨"Alpha", "Lee", [], []⟩ 10).assigned_to =
      (⟨"Alpha", "Lee", [], []⟩ : IncidentAgent).team_lead ∧
    (monitorTask ⟨"Alpha", "Lee", [], []⟩ 10).dependencies = [] ∧
    pyIn "Monitor" (monitorTask ⟨"Alpha", "Lee", [], []⟩ 10).description = true :=
  c6_zero_relevance_monitor ⟨false, fun _ _ _ ts => ts⟩ ⟨"Alpha", "Lee", [], []⟩
    "printer on fire" 10 (by decide)

/-! ## Claim C7: deadlines never exceed the incident deadline -/

theorem deadline_security {a : IncidentAgent} {inc : String} {dl b : Int} :
    ∀ t ∈ generateSecurityTasks a inc dl b,
      ∀ d : Int, t.tentative_deadline = some d → d ≤ dl := by
  intro t ht
  simp only [generateSecurityTasks] at ht
  split at ht
  · simp only [List.mem_cons, List.not_mem_nil, or_false] at ht
    rcases ht with h | h | h <;> subst h <;> intro d hd <;>
      simp only [Option.some.injEq] at hd <;> omega
  · simp at ht

theorem deadline_infrastructure {a : IncidentAgent} {inc : String} {dl b : Int} :
    ∀ t ∈ generateInfrastructureTasks a inc dl b,
      ∀ d : Int, t.tentative_deadline = some d → d ≤ dl := by
  intro t ht
  simp only [generateInfrastructureTasks] at ht
  split at ht
  · simp only [List.mem_cons, List.not_mem_nil, or_false] at ht
    rcases ht with h | h | h <;> subst h <;> intro d hd <;>
      simp only [Option.some.injEq] at hd <;> omega
  · simp at ht

theorem deadline_frontend {a : IncidentAgent} {inc : String} {dl b : Int} :
    ∀ t ∈ generateFrontendTasks a inc dl b,
      ∀ d : Int, t.tentative_deadline = some d → d ≤ dl := by
  intro t ht
  simp only [generateFrontendTasks] at ht
  split at ht
  · simp only [List.mem_cons, List.not_mem_nil, or_false] at ht
    rcases ht with h | h <;> subst h <;> intro d hd <;>
      simp only [Option.some.injEq] at hd <;> omega
  · simp at ht

theorem deadline_database {a : IncidentAgent} {inc : String} {dl b : Int} :
    ∀ t ∈ generateDatabaseTasks a inc dl b,
      ∀ d : Int, t.tentative_deadline = some d → d ≤ dl := by
  intro t ht
  simp only [generateDatabaseTasks] at ht
  split at ht
  · simp only [List.mem_cons, List.not_mem_nil, or_false] at ht
    rcases ht with h | h <;> subst h <;> intro d hd <;>
      simp only [Option.some.injEq] at hd <;> omega
  · simp at ht

theorem deadline_expert {a : IncidentAgent} {inc : String} {dl r : Int} :
    ∀ t ∈ generateExpertTasks a inc dl r,
      ∀ d : Int, t.tentative_deadline = some d → d ≤ dl := by
  intro t ht
  simp only [generateExpertTasks] at ht
  split at ht
  · simp only [List.mem_cons, List.not_mem_nil, or_false] at ht
    subst ht
    intro d hd
    simp only [investigateTask, Option.some.injEq] at hd
    omega
  · simp only [expertBlocks] at ht
    rcases List.mem_append.mp ht with h | h
    · rcases List.mem_append.mp h with h | h
      · rcases List.mem_append.mp h with h | h
        · exact deadline_security t (mem_ite_nil h)
        · exact deadline_infrastructure t (mem_ite_nil h)
      · exact deadline_frontend t (mem_ite_nil h)
    · exact deadline_database t (mem_ite_nil h)

theorem mem_postPassAux {lead : String} {members : List String} {dl : Int} {n : ℕ} :
    ∀ {i : ℕ} {ts : List Task} {t' : Task},
      t' ∈ postPassAux lead members dl n i ts →
      ∃ i' t, t ∈ ts ∧ t' = fixTask lead members dl n i' t := by
  intro i ts
  induction ts generalizing i with
  | nil => intro t' h; simp [postPassAux] at h
  | cons t r ih =>
    intro t' h
    simp only [postPassAux, List.mem_cons] at h
    rcases h with h | h
    · exact ⟨i, t, List.mem_cons_self t r, h⟩
    · rcases ih h with ⟨i', t0, hm, he⟩
      exact ⟨i', t0, List.mem_cons_of_mem _ hm, he⟩

theorem fixAssignee_deadline (lead : String) (members : List String) (i : ℕ)
    (t : Task) : (fixAssignee lead members i t).tentative_deadline =
      t.tentative_deadline := by
  unfold fixAssignee
  split <;> rfl

theorem fixTask_deadline {lead : String} {members : List String} {dl : Int}
    {n i : ℕ} {t : Task} (h : ∀ d : Int, t.tentative_deadline = some d → d ≤ dl) :
    ∃ d : Int, (fixTask lead members dl n i t).tentative_deadline = some d ∧
      d ≤ dl := by
  unfold fixTask
  rw [fixAssignee_deadline]
  unfold fixDeadline
  split
  · refine ⟨dl - max 2 ((n - i) * 2), rfl, ?_⟩
    have h2 : (2 : ℕ) ≤ max 2 ((n - i) * 2) := le_max_left _ _
    omega
  next hne =>
    rcases Option.ne_none_iff_exists.mp hne with ⟨d, hd⟩
    exact ⟨d, hd.symm, h d hd.symm⟩

/-- The only guarantee the spec's interface contract gives about the
enhancement hook's deadlines: they are null or within the incident
deadline.  (`gemini_integration` is not part of the analysed sources, so
the hook is modelled from the spec as an arbitrary such function.) -/
def enhancerDeadlinesBounded (g : Enhancer) (deadline : Int) : Prop :=
  ∀ name exp inc ts t, t ∈ g.enhance name exp inc ts →
    ∀ d : Int, t.tentative_deadline = some d → d ≤ deadline

/-- C7 fails on the code as claimed: the post-pass only backfills *null*
deadlines, so an enhancement hook that returns a task with a non-null
deadline past the incident deadline (here hour 101 against deadline 100)
passes through `propose_tasks` untouched. -/
theorem c7_deadline_counterexample :
    ((proposeTasks
        ⟨true, fun _ _ _ _ => [⟨"Alpha_EXT_01", "Escalate to vendor", 5, 2,
          some 101, "Lee", []⟩]⟩
        agentA "Security breach detected in Alpha systems" 100).all
      (fun t => t.tentative_deadline.all (fun d => decide (d ≤ 100)))) = false := by
  decide

/-- C7 (amended): every task returned by `propose_tasks` carries a
deadline, and it is at most the incident deadline provided every task the
enhancement step returns has a null deadline or one at most the incident
deadline — in particular whenever the hook is disabled; rule-generated
and backfilled deadlines always satisfy the bound by construction. -/
theorem c7_deadlines_bounded (g : Enhancer) (a : IncidentAgent)
    (incident : String) (deadline : Int)
    (hg : enhancerDeadlinesBounded g deadline) :
    ∀ t ∈ proposeTasks g a incident deadline,
      ∃ d : Int, t.tentative_deadline = some d ∧ d ≤ deadline := by
  intro t ht
  simp only [proposeTasks] at ht
  split at ht
  · simp only [List.mem_cons, List.not_mem_nil, or_false] at ht
    subst ht
    exact ⟨deadline - 4, rfl, by omega⟩
  · rcases mem_postPassAux ht with ⟨i', t0, hm, he⟩
    subst he
    apply fixTask_deadline
    by_cases hgon : g.enabled = true
    · rw [if_pos hgon] at hm
      exact fun d hd => hg _ _ _ _ t0 hm d hd
    · rw [if_neg hgon] at hm
      exact deadline_expert t0 hm

/-- Witness for C7: with the hook disabled (trivially bounded), the
security-audit task of `agentA` comes out of `propose_tasks` with
deadline 92 ≤ 100. -/
theorem c7_deadlines_bounded_witness :
    ∃ d : Int,
      (⟨"Alpha_SEC_01", "Conduct immediate security audit of affected systems",
        13, 4, some 92, "M1", []⟩ : Task).tentative_deadline = some d ∧ d ≤ 100 :=
  c7_deadlines_bounded ⟨false, fun _ _ _ _ => []⟩ agentA
    "Security breach detected in Alpha systems" 100
    (by intro name exp inc ts t htm d hd; simp at htm)
    ⟨"Alpha_SEC_01", "Conduct immediate security audit of affected systems",
      13, 4, some 92, "M1", []⟩ (by decide)

/-! ## Claim C8: assignment ordering, stability and rounding -/

theorem roundHalfEven_close (q : ℚ) : |(roundHalfEven q : ℚ) - q| ≤ 1/2 := by
  have h1 : (⌊q⌋ : ℚ) ≤ q := Int.floor_le q
  have h2 : q < ⌊q⌋ + 1 := Int.lt_floor_add_one q
  unfold roundHalfEven
  by_cases hc1 : q - ⌊q⌋ < 1/2
  · rw [if_pos hc1, abs_sub_comm, abs_of_nonneg (by linarith)]
    linarith
  · rw [if_neg hc1]
    by_cases hc2 : 1/2 < q - ⌊q⌋
    · rw [if_pos hc2]
      push_cast
      rw [abs_of_nonneg (by linarith)]
      linarith
    · have heq : q - ⌊q⌋ = 1/2 := le_antisymm (not_lt.mp hc2) (not_lt.mp hc1)
      by_cases hc3 : ⌊q⌋ % 2 = 0
      · rw [if_neg hc2, if_pos hc3, abs_sub_comm, abs_of_nonneg (by linarith)]
        linarith
      · rw [if_neg hc2, if_neg hc3]
        push_cast
        rw [abs_of_nonneg (by linarith)]
        linarith

theorem round2_close (q : ℚ) : |round2 q - q| ≤ 1/200 := by
  have h := roundHalfEven_close (100 * q)
  have heq : round2 q - q = ((roundHalfEven (100 * q) : ℚ) - 100 * q) / 100 := by
    unfold round2; ring
  rw [heq, abs_div, abs_of_nonneg (by norm_num : (0:ℚ) ≤ 100)]
  linarith

theorem round2_hundredths (q : ℚ) : ∃ k : ℤ, round2 q = (k : ℚ) / 100 :=
  ⟨roundHalfEven (100 * q), rfl⟩

/-- C8: the assignment list is sorted by (rounded) average importance
descending across teams; within each team tasks are sorted by importance
descending; both sorts are stable — for each key value the rows/tasks
carrying it keep their original proposal order; and each team's average
importance is the exact average rounded to 2 decimals (a multiple of
1/100 within 1/200 of the true average). -/
theorem c8_assignment_ordering (team_tasks : List (String × List Task)) :
    ((createAssignments team_tasks).Pairwise
      (fun x y => y.average_importance ≤ x.average_importance)) ∧
    (∀ v : ℚ, (createAssignments team_tasks).filter
        (fun x => decide (x.average_importance = v)) =
      (assignmentRows team_tasks).filter
        (fun x => decide (x.average_importance = v))) ∧
    (∀ x ∈ createAssignments team_tasks,
      ∃ p ∈ team_tasks, p.2 ≠ [] ∧ x = mkAssignment p.1 p.2) ∧
    (∀ (name : String) (tasks : List Task),
      ((mkAssignment name tasks).tasks.Pairwise
        (fun s t => t.importance ≤ s.importance)) ∧
      (∀ v : Int, (mkAssignment name tasks).tasks.filter
          (fun t => decide (t.importance = v)) =
        tasks.filter (fun t => decide (t.importance = v))) ∧
      (mkAssignment name tasks).average_importance = round2 (exactAvg tasks) ∧
      |(mkAssignment name tasks).average_importance - exactAvg tasks| ≤ 1/200 ∧
      ∃ k : ℤ, (mkAssignment name tasks).average_importance = (k : ℚ) / 100) := by
  refine ⟨sortDesc_pairwise _ _, fun v => filter_sortDesc _ v _, ?_, ?_⟩
  · intro x hx
    rw [createAssignments, mem_sortDesc] at hx
    rcases List.mem_filterMap.mp hx with ⟨p, hp, hsome⟩
    by_cases he : p.2.isEmpty
    · rw [if_pos he] at hsome
      exact absurd hsome (by simp)
    · rw [if_neg he] at hsome
      simp only [Option.some.injEq] at hsome
      exact ⟨p, hp, fun hnil => he (by simp [hnil]), hsome.symm⟩
  · intro name tasks
    exact ⟨sortDesc_pairwise _ _, fun v => filter_sortDesc _ v _, rfl,
      round2_close (exactAvg tasks), round2_hundredths (exactAvg tasks)⟩

/-- Witness for C8 at a concrete run with two teams: the higher-average
team's row is produced from its team entry. -/
theorem c8_assignment_ordering_witness :
    ∃ p ∈ [("T", [(⟨"T_SEC_01", "Audit", 9, 4, some 92, "M1", []⟩ : Task)])],
      p.2 ≠ [] ∧
      mkAssignment "T" [(⟨"T_SEC_01", "Audit", 9, 4, some 92, "M1", []⟩ : Task)] =
        mkAssignment p.1 p.2 :=
  (c8_assignment_ordering
      [("T", [(⟨"T_SEC_01", "Audit", 9, 4, some 92, "M1", []⟩ : Task)])]).2.2.1
    (mkAssignment "T" [(⟨"T_SEC_01", "Audit", 9, 4, some 92, "M1", []⟩ : Task)])
    (by
      rw [show createAssignments
          [("T", [(⟨"T_SEC_01", "Audit", 9, 4, some 92, "M1", []⟩ : Task)])] =
        [mkAssignment "T" [(⟨"T_SEC_01", "Audit", 9, 4, some 92, "M1", []⟩ : Task)]]
        from rfl]
      exact List.mem_singleton_self _)

/-! ## Claim C3: the TSUNAMI count scenario -/

def tsunamiQuery : String := "How many times was TSUNAMI mentioned?"

/-- C3 fails on the code: against a text with exactly 3 whole-word
occurrences of TSUNAMI, the count result does not map only TSUNAMI — the
lazy pattern `how many times.*?(\w+)` captures the word `was`, which
enters the result map as well. -/
theorem c3_count_counterexample :
    wholeWordCount "TSUNAMI" "TSUNAMI TSUNAMI TSUNAMI" = 3 ∧
    (countOccurrences tsunamiQuery "TSUNAMI TSUNAMI TSUNAMI").results.map Prod.fst ≠
      ["TSUNAMI"] := by decide

/-- C3 (amended): for the query "How many times was TSUNAMI mentioned?"
against a text with exactly 3 whole-word occurrences of TSUNAMI, the
count result maps exactly the two extracted terms — `was` (captured by
the lazy `how many times.*?(\w+)` pattern) to its own whole-word count
`w`, and TSUNAMI to 3 — and `total_mentions` equals `w + 3` (so exactly
3 whenever `was` does not occur as a whole word). -/
theorem c3_count_tsunami (content : String)
    (h : wholeWordCount "TSUNAMI" content = 3) :
    (countOccurrences tsunamiQuery content).results =
      [("was", wholeWordCount "was" content), ("TSUNAMI", 3)] ∧
    (countOccurrences tsunamiQuery content).total_mentions =
      wholeWordCount "was" content + 3 := by
  have ht : countTerms tsunamiQuery = ["was", "TSUNAMI"] := by decide
  constructor
  · simp [countOccurrences, ht, h]
  · simp [countOccurrences, ht, h]

/-- Witness for C3 on the text `TSUNAMI TSUNAMI TSUNAMI` (three
whole-word occurrences, no `was`). -/
theorem c3_count_tsunami_witness :
    (countOccurrences tsunamiQuery "TSUNAMI TSUNAMI TSUNAMI").results =
      [("was", wholeWordCount "was" "TSUNAMI TSUNAMI TSUNAMI"), ("TSUNAMI", 3)] ∧
    (countOccurrences tsunamiQuery "TSUNAMI TSUNAMI TSUNAMI").total_mentions =
      wholeWordCount "was" "TSUNAMI TSUNAMI TSUNAMI" + 3 :=
  c3_count_tsunami "TSUNAMI TSUNAMI TSUNAMI" (by decide)

/-! ## Claim C10: the empty team name -/

theorem pyIn_empty_left (s : String) : pyIn "" s = true := isSub_nil s.data

@[simp] theorem pyLower_empty : pyLower "" = "" := rfl

theorem calculateRelevance_empty_ge (exp : List String) (incident : String) :
    20 ≤ calculateRelevance "" exp incident := by
  simp only [calculateRelevance, pyLower_empty, pyIn_empty_left]
  norm_num
  split_ifs <;> omega

theorem searchTeamName_eq_none {l : List Char}
    (h : isSub "Team Name:".data l = false) : searchTeamName l = none := by
  induction l with
  | nil => rfl
  | cons c t ih =>
    simp only [isSub, Bool.or_eq_false_iff] at h
    rcases h with ⟨h1, h2⟩
    rw [searchTeamName, if_neg (by simp [h1])]
    exact ih h2

theorem loadTeamName_empty {content : String}
    (h : pyIn "Team Name:" content = false) : loadTeamName content = "" := by
  unfold pyIn at h
  unfold loadTeamName
  rw [searchTeamName_eq_none h]

/-- C10: when a team document never contains `Team Name:`, the extracted
team name is the empty string; since the empty string is a substring of
everything, the +20 team-name bonus is then awarded on every general
query and the incident-relevance score is always at least 20 — in
particular never 0, so such a team never takes the minimal-monitor-task
branch of `propose_tasks`. -/
theorem c10_missing_team_name (content : String)
    (h : pyIn "Team Name:" content = false) :
    loadTeamName content = "" ∧
    (∀ (caps : List String) (query : String) (kws : List String),
      scoreAgentRelevance caps (loadTeamName content) query kws =
        10 * (pairCount caps kws : Int) + 20 +
        (if generalQuery query then 1 else 0)) ∧
    (∀ (exp : List String) (incident : String),
      20 ≤ calculateRelevance (loadTeamName content) exp incident) ∧
    (∀ (g : Enhancer) (lead : String) (members exp : List String)
        (incident : String) (deadline : Int),
      calculateRelevance (loadTeamName content) exp incident ≠ 0 ∧
      proposeTasks g ⟨loadTeamName content, lead, members, exp⟩ incident deadline =
        postPass lead members deadline
          (if g.enabled then
            g.enhance (loadTeamName content) exp incident
              (generateExpertTasks ⟨loadTeamName content, lead, members, exp⟩
                incident deadline
                (calculateRelevance (loadTeamName content) exp incident))
           else
            generateExpertTasks ⟨loadTeamName content, lead, members, exp⟩
              incident deadline
              (calculateRelevance (loadTeamName content) exp incident))) := by
  have h0 : loadTeamName content = "" := loadTeamName_empty h
  have hscore : ∀ (caps : List String) (query : String) (kws : List String),
      scoreAgentRelevance caps (loadTeamName content) query kws =
        10 * (pairCount caps kws : Int) + 20 +
        (if generalQuery query then 1 else 0) := by
    intro caps query kws
    rw [h0, scoreAgentRelevance_closed, pyLower_empty,
      pyIn_empty_left (pyLower query)]
    simp
  have hrel : ∀ (exp : List String) (incident : String),
      20 ≤ calculateRelevance (loadTeamName content) exp incident := by
    intro exp incident
    rw [h0]
    exact calculateRelevance_empty_ge exp incident
  refine ⟨h0, hscore, hrel, ?_⟩
  intro g lead members exp incident deadline
  have hne : calculateRelevance (loadTeamName content) exp incident ≠ 0 := by
    have := hrel exp incident
    omega
  refine ⟨hne, ?_⟩
  simp only [proposeTasks]
  rw [if_neg hne]

/-- Witness for C10 at a concrete document with no `Team Name:` line. -/
theorem c10_missing_team_name_witness :
    loadTeamName "just some notes about security" = "" ∧
    20 ≤ calculateRelevance (loadTeamName "just some notes about security")
      ["security"] "security breach" :=
  ⟨(c10_missing_team_name "just some notes about security" (by decide)).1,
   (c10_missing_team_name "just some notes about security" (by decide)).2.2.1
     ["security"] "security breach"⟩

end LevelOne
